import Mathlib

set_option maxRecDepth 8000

/-!
Verification development for the IntelliScript core:
the transcription/diarization merge routine
(src/backend/services/qa_service.py, merge_transcription_diarization)
and the audio cleaning / loudness normalization pipelines
(src/backend/services/audio_processor.py,
 src/backend/services/enhanced_audio_processor.py).

Floating-point times are embedded as rationals; Python strings as Lean
strings; the file system touched by the pipelines as an association list
from path to a symbolic audio content; external process invocations
(ffmpeg) as environment-driven steps that either fail or record the
filter expression they were handed.
-/

/-! ## Data model (qa_service.py) -/

/-- A transcribed word, the dict `{word, start, end}` of a whisper word entry. -/
structure Word where
  word : String
  start : ℚ
  end_ : ℚ
deriving DecidableEq, Repr

/-- A diarization turn, the dict `{start, end, speaker}`. -/
structure SpeakerTurn where
  start : ℚ
  end_ : ℚ
  speaker : String
deriving DecidableEq, Repr

/-- An output chunk, the dict `{speaker, text, start, end}`. -/
structure SpeakerChunk where
  speaker : String
  text : String
  start : ℚ
  end_ : ℚ
deriving DecidableEq, Repr

/-- A word with its assigned speaker (`{**word, 'speaker': speaker}`). -/
structure WordS where
  word : String
  start : ℚ
  end_ : ℚ
  speaker : String
deriving DecidableEq, Repr

/-- The pandas row filter `(speaker_df['start'] <= time) & (speaker_df['end'] >= time)`
applied to one turn. -/
def turnContains (t : SpeakerTurn) (time : ℚ) : Bool :=
  decide (t.start ≤ time) && decide (t.end_ ≥ time)

/-- `find_speaker` (qa_service.py line 105): the first row of the turn list, in
input order, whose interval contains `time` (pandas `.iloc[0]` on the filtered
frame), else the sentinel `"UNKNOWN"`. -/
def find_speaker (speaker_df : List SpeakerTurn) (time : ℚ) : String :=
  match speaker_df.find? (fun t => turnContains t time) with
  | some t => t.speaker
  | none => "UNKNOWN"

/-- `midpoint = word.start + (word.end - word.start) / 2` (qa_service.py line 112). -/
def wordMidpoint (w : Word) : ℚ :=
  w.start + (w.end_ - w.start) / 2

/-- The `words_with_speakers` list (qa_service.py lines 110-114). -/
def assignSpeakers (turns : List SpeakerTurn) (words : List Word) : List WordS :=
  words.map (fun w => ⟨w.word, w.start, w.end_, find_speaker turns (wordMidpoint w)⟩)

/-- Opening a fresh `current_chunk` from a word (qa_service.py lines 121-126, 137-142). -/
def openChunk (w : WordS) : SpeakerChunk :=
  ⟨w.speaker, w.word, w.start, w.end_⟩

/-- `current_chunk['text'] += word; current_chunk['end'] = word.end`
(qa_service.py lines 143-145). -/
def appendWord (c : SpeakerChunk) (w : WordS) : SpeakerChunk :=
  { c with text := c.text ++ w.word, end_ := w.end_ }

/-- `speaker_changed or is_long_pause` (qa_service.py lines 132-135). -/
def splitHere (min_gap : ℚ) (cur : SpeakerChunk) (prev w : WordS) : Bool :=
  decide (w.speaker ≠ cur.speaker) || decide (w.start - prev.end_ > min_gap)

/-- The chunking loop (qa_service.py lines 128-147), with the accumulated
`speaker_chunks`, the `current_chunk`, and the previous word carried explicitly;
the trailing `speaker_chunks.append(current_chunk)` is the base case. -/
def chunkLoop (min_gap : ℚ) :
    List SpeakerChunk → SpeakerChunk → WordS → List WordS → List SpeakerChunk
  | chunks, cur, _, [] => chunks ++ [cur]
  | chunks, cur, prev, w :: rest =>
    if splitHere min_gap cur prev w then
      chunkLoop min_gap (chunks ++ [cur]) (openChunk w) w rest
    else
      chunkLoop min_gap chunks (appendWord cur w) w rest

/-- Python `str.strip()`: remove leading and trailing whitespace characters. -/
def pyStrip (s : String) : String :=
  ⟨((s.data.dropWhile Char.isWhitespace).reverse.dropWhile Char.isWhitespace).reverse⟩

/-- `chunk['text'] = chunk['text'].strip()` (qa_service.py lines 150-151). -/
def stripChunk (c : SpeakerChunk) : SpeakerChunk :=
  { c with text := pyStrip c.text }

/-- `merge_transcription_diarization` (qa_service.py lines 86-153).
The Python guards return `[]` when the diarization list is empty or when the
word list is empty; otherwise the first word opens the first chunk and the
loop consumes the rest. -/
def merge_transcription_diarization (whisper_words : List Word)
    (diarization : List SpeakerTurn) (min_gap_seconds : ℚ) : List SpeakerChunk :=
  if diarization.isEmpty then []
  else
    match assignSpeakers diarization whisper_words with
    | [] => []
    | w0 :: rest =>
      (chunkLoop min_gap_seconds [] (openChunk w0) w0 rest).map stripChunk

/-! ## Specification-side chunking: grouping by the adjacent-pair boundary rule -/

/-- Concatenation of the `word` fields of a word list. -/
def catWords (t : List WordS) : String :=
  t.foldr (fun w acc => w.word ++ acc) ""

/-- A run of words `(h, t)` stands for the nonempty list `h :: t`. -/
def runWords (r : WordS × List WordS) : List WordS :=
  r.1 :: r.2

/-- The last element of a list, or the default when the list is empty. -/
def lastD (l : List WordS) (d : WordS) : WordS :=
  match l with
  | [] => d
  | a :: t => lastD t a

/-- The chunk a run of words closes into: speaker and start from the first
word, end from the last word, text the verbatim concatenation. -/
def runChunk (r : WordS × List WordS) : SpeakerChunk :=
  ⟨r.1.speaker, r.1.word ++ catWords r.2, r.1.start, (lastD r.2 r.1).end_⟩

/-- Boundary rule between two adjacent words: the speaker changes, or the gap
from the previous word's end to the current word's start strictly exceeds the
threshold. -/
def pairSplit (min_gap : ℚ) (prev w : WordS) : Bool :=
  decide (w.speaker ≠ prev.speaker) || decide (w.start - prev.end_ > min_gap)

/-- Grouping of a word stream into maximal runs separated exactly at the
`pairSplit` boundaries; `(h, t)` is the run being accumulated. -/
def pairRuns (min_gap : ℚ) (h : WordS) (t : List WordS) :
    List WordS → List (WordS × List WordS)
  | [] => [(h, t)]
  | w :: rest =>
    if pairSplit min_gap (lastD t h) w then
      (h, t) :: pairRuns min_gap w [] rest
    else
      pairRuns min_gap h (t ++ [w]) rest

lemma lastD_concat (t : List WordS) (h w : WordS) : lastD (t ++ [w]) h = w := by
  induction t generalizing h with
  | nil => rfl
  | cons a t ih => simpa [lastD] using ih a

lemma lastD_mem (t : List WordS) (h : WordS) : lastD t h ∈ h :: t := by
  induction t generalizing h with
  | nil => simp [lastD]
  | cons a t ih =>
    have := ih a
    simp only [lastD]
    rcases List.mem_cons.mp this with hx | hx
    · simp [hx]
    · simp [List.mem_cons_of_mem, hx]

/-! ## Chunking lemmas -/

/-- Top-down form of `chunkLoop` (accumulator removed). -/
def chunksFrom (min_gap : ℚ) (cur : SpeakerChunk) (prev : WordS) :
    List WordS → List SpeakerChunk
  | [] => [cur]
  | w :: rest =>
    if splitHere min_gap cur prev w then
      cur :: chunksFrom min_gap (openChunk w) w rest
    else
      chunksFrom min_gap (appendWord cur w) w rest

lemma chunkLoop_eq (g : ℚ) (rest : List WordS) :
    ∀ (chunks : List SpeakerChunk) (cur : SpeakerChunk) (prev : WordS),
      chunkLoop g chunks cur prev rest = chunks ++ chunksFrom g cur prev rest := by
  induction rest with
  | nil => intro chunks cur prev; simp [chunkLoop, chunksFrom]
  | cons w rest ih =>
    intro chunks cur prev
    simp only [chunkLoop, chunksFrom]
    by_cases h : splitHere g cur prev w
    · simp [h, ih, List.append_assoc]
    · simp [h, ih]

lemma catWords_concat (t : List WordS) (w : WordS) :
    catWords (t ++ [w]) = catWords t ++ w.word := by
  induction t with
  | nil => simp [catWords]
  | cons x t ih => simp [catWords] at ih ⊢; rw [ih, String.append_assoc]

lemma appendWord_runChunk (h : WordS) (t : List WordS) (w : WordS) :
    appendWord (runChunk (h, t)) w = runChunk (h, t ++ [w]) := by
  simp [appendWord, runChunk, lastD_concat, catWords_concat, String.append_assoc]

lemma openChunk_runChunk (w : WordS) : openChunk w = runChunk (w, []) := by
  simp [openChunk, runChunk, catWords, lastD]

/-- If the previous word's speaker agrees with the run head's speaker,
the code's `splitHere` test (against the chunk's speaker) coincides with the
adjacent-pair boundary rule. -/
lemma splitHere_eq_pairSplit (g : ℚ) (h : WordS) (t : List WordS) (w : WordS)
    (hs : (lastD t h).speaker = h.speaker) :
    splitHere g (runChunk (h, t)) (lastD t h) w = pairSplit g (lastD t h) w := by
  simp [splitHere, pairSplit, runChunk, hs]

lemma pairSplit_false_speaker (g : ℚ) (p w : WordS) (hsp : ¬ pairSplit g p w = true) :
    w.speaker = p.speaker := by
  by_contra hne
  exact hsp (by simp [pairSplit, hne])

lemma chunksFrom_eq_pairRuns (g : ℚ) (rest : List WordS) :
    ∀ (h : WordS) (t : List WordS), (lastD t h).speaker = h.speaker →
      chunksFrom g (runChunk (h, t)) (lastD t h) rest
        = (pairRuns g h t rest).map runChunk := by
  induction rest with
  | nil => intro h t _; simp [chunksFrom, pairRuns]
  | cons w rest ih =>
    intro h t hs
    simp only [chunksFrom, pairRuns, splitHere_eq_pairSplit g h t w hs]
    by_cases hsp : pairSplit g (lastD t h) w
    · have hw : chunksFrom g (openChunk w) w rest = (pairRuns g w [] rest).map runChunk := by
        have := ih w [] (by simp [lastD])
        simpa [openChunk_runChunk, lastD] using this
      simp [hsp, hw]
    · have hlast : lastD (t ++ [w]) h = w := lastD_concat t h w
      have hwsp : w.speaker = h.speaker := by
        rw [pairSplit_false_speaker g _ w hsp, hs]
      have := ih h (t ++ [w]) (by rw [hlast, hwsp])
      rw [hlast] at this
      simp [hsp, appendWord_runChunk, this]

/-- The words of the runs, flattened, are the input word stream. -/
lemma pairRuns_flatten (g : ℚ) (rest : List WordS) :
    ∀ (h : WordS) (t : List WordS),
      ((pairRuns g h t rest).map runWords).flatten = (h :: t) ++ rest := by
  induction rest with
  | nil => intro h t; simp [pairRuns, runWords]
  | cons w rest ih =>
    intro h t
    simp only [pairRuns]
    by_cases hsp : pairSplit g (lastD t h) w
    · simp [hsp, runWords, ih]
    · have := ih h (t ++ [w])
      simp only [hsp, Bool.false_eq_true, if_neg, not_false_eq_true] at this ⊢
      simp [this]

/-- Every word of a run carries the run head's speaker. -/
lemma pairRuns_speakers (g : ℚ) (rest : List WordS) :
    ∀ (h : WordS) (t : List WordS), (∀ x ∈ h :: t, x.speaker = h.speaker) →
      ∀ r ∈ pairRuns g h t rest, ∀ x ∈ runWords r, x.speaker = r.1.speaker := by
  induction rest with
  | nil =>
    intro h t hall r hr x hx
    simp [pairRuns] at hr
    subst hr
    exact hall x hx
  | cons w rest ih =>
    intro h t hall
    simp only [pairRuns]
    by_cases hsp : pairSplit g (lastD t h) w
    · intro r hr
      simp only [hsp, if_pos, List.mem_cons] at hr
      rcases hr with hr | hr
      · subst hr; exact hall
      · exact ih w [] (by simp) r hr
    · intro r hr
      simp only [hsp, Bool.false_eq_true, if_neg, not_false_eq_true] at hr
      have hwsp : w.speaker = h.speaker := by
        rw [pairSplit_false_speaker g _ w hsp]
        exact hall _ (lastD_mem t h)
      refine ih h (t ++ [w]) ?_ r hr
      intro x hx
      rcases List.mem_cons.mp hx with hx | hx
      · simp [hx]
      · rcases (List.mem_append.mp hx) with hx | hx
        · exact hall x (List.mem_cons_of_mem _ hx)
        · simp only [List.mem_singleton] at hx
          rw [hx, hwsp]

/-- The merge routine, on a nonempty word stream, equals the grouping of the
stream by the adjacent-pair boundary rule, each run closed into its chunk. -/
lemma merge_eq_pairRuns (words : List Word) (turns : List SpeakerTurn) (g : ℚ)
    (w0 : WordS) (rest : List WordS)
    (ht : turns ≠ []) (hw : assignSpeakers turns words = w0 :: rest) :
    merge_transcription_diarization words turns g
      = (pairRuns g w0 [] rest).map (fun r => stripChunk (runChunk r)) := by
  unfold merge_transcription_diarization
  have hne : turns.isEmpty = false := by
    cases turns with
    | nil => exact absurd rfl ht
    | cons a l => rfl
  rw [hne, hw]
  simp only [Bool.false_eq_true, if_neg, not_false_eq_true]
  rw [chunkLoop_eq, List.nil_append, openChunk_runChunk]
  have := chunksFrom_eq_pairRuns g rest w0 [] (by simp [lastD])
  simp only [lastD] at this
  rw [this, List.map_map]
  rfl

/-! ## Helper lemmas for the chunk invariants -/

lemma run_sublist (runs : List (WordS × List WordS)) (r : WordS × List WordS)
    (hr : r ∈ runs) : List.Sublist (runWords r) ((runs.map runWords).flatten) := by
  induction runs with
  | nil => cases hr
  | cons a rs ih =>
    rcases List.mem_cons.mp hr with h | h
    · subst h
      simp only [List.map_cons, List.flatten_cons]
      exact List.sublist_append_left _ _
    · simp only [List.map_cons, List.flatten_cons]
      exact (ih h).trans (List.sublist_append_right _ _)

lemma heads_sublist (runs : List (WordS × List WordS)) :
    List.Sublist (runs.map (fun r => r.1)) ((runs.map runWords).flatten) := by
  induction runs with
  | nil => simp
  | cons a rs ih =>
    simp only [List.map_cons, List.flatten_cons, runWords]
    exact List.cons_sublist_cons.mpr (ih.trans (List.sublist_append_right _ _))

lemma assignSpeakers_mem (turns : List SpeakerTurn) (words : List Word) (x : WordS)
    (hx : x ∈ assignSpeakers turns words) : ∃ w ∈ words, x.start = w.start ∧ x.end_ = w.end_ := by
  obtain ⟨w, hw, hmap⟩ := List.mem_map.mp hx
  exact ⟨w, hw, by rw [← hmap], by rw [← hmap]⟩

/-! ## Claims C2, C3, C4, C5, C9, C10 -/

/-- C3 (confirmed): for every word the aligner computes
`midpoint = start + (end - start)/2`; it assigns the speaker of a turn whose
closed interval `[turn.start, turn.end]` contains the midpoint (both
boundaries inclusive), and when no turn contains the midpoint it assigns the
sentinel speaker `UNKNOWN`. -/
theorem claim_C3_midpoint_containment (turns : List SpeakerTurn) (w : Word) :
    wordMidpoint w = w.start + (w.end_ - w.start) / 2
    ∧ ((∀ t ∈ turns, ¬ (t.start ≤ wordMidpoint w ∧ wordMidpoint w ≤ t.end_)) →
        find_speaker turns (wordMidpoint w) = "UNKNOWN")
    ∧ ((∃ t ∈ turns, t.start ≤ wordMidpoint w ∧ wordMidpoint w ≤ t.end_) →
        ∃ t ∈ turns, (t.start ≤ wordMidpoint w ∧ wordMidpoint w ≤ t.end_)
          ∧ find_speaker turns (wordMidpoint w) = t.speaker) := by
  refine ⟨rfl, ?_, ?_⟩
  · intro hno
    have hf : turns.find? (fun t => turnContains t (wordMidpoint w)) = none := by
      rw [List.find?_eq_none]
      intro x hx
      have := hno x hx
      simp only [turnContains, ge_iff_le, Bool.and_eq_true, decide_eq_true_eq]
      tauto
    simp [find_speaker, hf]
  · rintro ⟨t, ht, hc1, hc2⟩
    have hsome : (turns.find? (fun t => turnContains t (wordMidpoint w))).isSome := by
      rw [List.find?_isSome]
      exact ⟨t, ht, by simp [turnContains, ge_iff_le, hc1, hc2]⟩
    obtain ⟨t', hf⟩ := Option.isSome_iff_exists.mp hsome
    refine ⟨t', List.mem_of_find?_eq_some hf, ?_, ?_⟩
    · have := List.find?_some hf
      simp only [turnContains, ge_iff_le, Bool.and_eq_true, decide_eq_true_eq] at this
      tauto
    · simp [find_speaker, hf]

/-- Witness for C3 at a concrete word and turn list. -/
theorem claim_C3_witness :
    (∃ t ∈ ([⟨0, 1, "A"⟩] : List SpeakerTurn),
        t.start ≤ wordMidpoint ⟨"hi", 0, 1⟩ ∧ wordMidpoint ⟨"hi", 0, 1⟩ ≤ t.end_)
    ∧ (∃ t ∈ ([⟨0, 1, "A"⟩] : List SpeakerTurn),
        (t.start ≤ wordMidpoint ⟨"hi", 0, 1⟩ ∧ wordMidpoint ⟨"hi", 0, 1⟩ ≤ t.end_)
        ∧ find_speaker [⟨0, 1, "A"⟩] (wordMidpoint ⟨"hi", 0, 1⟩) = t.speaker) := by
  have hex : ∃ t ∈ ([⟨0, 1, "A"⟩] : List SpeakerTurn),
      t.start ≤ wordMidpoint ⟨"hi", 0, 1⟩ ∧ wordMidpoint ⟨"hi", 0, 1⟩ ≤ t.end_ := by
    refine ⟨⟨0, 1, "A"⟩, by simp, ?_⟩
    norm_num [wordMidpoint]
  exact ⟨hex, (claim_C3_midpoint_containment [⟨0, 1, "A"⟩] ⟨"hi", 0, 1⟩).2.2 hex⟩

/-- C9 (confirmed): with zero words or zero speaker turns, the merge returns
the empty chunk list (total function, no error raised). -/
theorem claim_C9_empty_input (ws : List Word) (ts : List SpeakerTurn) (g : ℚ) :
    merge_transcription_diarization [] ts g = []
    ∧ merge_transcription_diarization ws [] g = [] := by
  constructor
  · simp [merge_transcription_diarization, assignSpeakers]
  · simp [merge_transcription_diarization]

/-- Counterexample to C2 as stated: with two overlapping turns that both
contain the single word's midpoint, permuting the turn list changes the
assigned speaker — the first matching row in input order wins
(pandas `.iloc[0]` in qa_service.py line 107). -/
theorem claim_C2_counterexample :
    List.Perm ([⟨0, 1, "A"⟩, ⟨0, 1, "B"⟩] : List SpeakerTurn) [⟨0, 1, "B"⟩, ⟨0, 1, "A"⟩]
    ∧ merge_transcription_diarization [⟨"hi", 0, 1⟩] [⟨0, 1, "A"⟩, ⟨0, 1, "B"⟩] (3/10)
        = [⟨"A", "hi", 0, 1⟩]
    ∧ merge_transcription_diarization [⟨"hi", 0, 1⟩] [⟨0, 1, "B"⟩, ⟨0, 1, "A"⟩] (3/10)
        = [⟨"B", "hi", 0, 1⟩] := by
  refine ⟨List.Perm.swap _ _ _, ?_, ?_⟩
  · norm_num [merge_transcription_diarization, assignSpeakers, wordMidpoint, find_speaker,
      List.find?, turnContains, chunkLoop, openChunk, stripChunk, pyStrip]
    decide
  · norm_num [merge_transcription_diarization, assignSpeakers, wordMidpoint, find_speaker,
      List.find?, turnContains, chunkLoop, openChunk, stripChunk, pyStrip]
    decide

/-- C2 amended: the aligner picks the first turn in input-list order among
those containing the midpoint, so the assignment is permutation-invariant
exactly under the proviso that all turns containing the queried time agree on
the speaker (in particular, when no two turns overlap); with overlapping
turns of different speakers it does depend on input order. -/
theorem claim_C2_amended_first_match (turns turns' : List SpeakerTurn) (m : ℚ)
    (hperm : List.Perm turns turns')
    (hagree : ∀ t₁ ∈ turns, ∀ t₂ ∈ turns,
      turnContains t₁ m = true → turnContains t₂ m = true → t₁.speaker = t₂.speaker) :
    find_speaker turns m = find_speaker turns' m := by
  unfold find_speaker
  cases hf : turns.find? (fun t => turnContains t m) with
  | none =>
    have hnone : turns'.find? (fun t => turnContains t m) = none := by
      rw [List.find?_eq_none] at hf ⊢
      intro x hx
      exact hf x (hperm.mem_iff.mpr hx)
    rw [hnone]
  | some t =>
    have htmem : t ∈ turns := List.mem_of_find?_eq_some hf
    have htc : turnContains t m = true := by simpa using List.find?_some hf
    have hsome : (turns'.find? (fun t => turnContains t m)).isSome := by
      rw [List.find?_isSome]
      exact ⟨t, hperm.mem_iff.mp htmem, htc⟩
    obtain ⟨t', hf'⟩ := Option.isSome_iff_exists.mp hsome
    have ht'mem : t' ∈ turns := hperm.mem_iff.mpr (List.mem_of_find?_eq_some hf')
    have ht'c : turnContains t' m = true := by simpa using List.find?_some hf'
    rw [hf']
    exact hagree t htmem t' ht'mem htc ht'c

/-- Witness for the amended C2 at concrete non-overlapping turns. -/
theorem claim_C2_amended_witness :
    List.Perm ([⟨0, 1, "A"⟩, ⟨2, 3, "B"⟩] : List SpeakerTurn) [⟨2, 3, "B"⟩, ⟨0, 1, "A"⟩]
    ∧ (∀ t₁ ∈ ([⟨0, 1, "A"⟩, ⟨2, 3, "B"⟩] : List SpeakerTurn),
        ∀ t₂ ∈ ([⟨0, 1, "A"⟩, ⟨2, 3, "B"⟩] : List SpeakerTurn),
        turnContains t₁ (1/2) = true → turnContains t₂ (1/2) = true →
          t₁.speaker = t₂.speaker)
    ∧ find_speaker [⟨0, 1, "A"⟩, ⟨2, 3, "B"⟩] (1/2)
        = find_speaker [⟨2, 3, "B"⟩, ⟨0, 1, "A"⟩] (1/2) := by
  have hperm : List.Perm ([⟨0, 1, "A"⟩, ⟨2, 3, "B"⟩] : List SpeakerTurn)
      [⟨2, 3, "B"⟩, ⟨0, 1, "A"⟩] := List.Perm.swap _ _ _
  have hagree : ∀ t₁ ∈ ([⟨0, 1, "A"⟩, ⟨2, 3, "B"⟩] : List SpeakerTurn),
      ∀ t₂ ∈ ([⟨0, 1, "A"⟩, ⟨2, 3, "B"⟩] : List SpeakerTurn),
      turnContains t₁ (1/2) = true → turnContains t₂ (1/2) = true →
        t₁.speaker = t₂.speaker := by
    intro t₁ h₁ t₂ h₂ hc₁ hc₂
    rcases List.mem_cons.mp h₁ with rfl | h₁ <;> rcases List.mem_cons.mp h₂ with rfl | h₂
    · rfl
    · simp only [List.mem_singleton] at h₂
      subst h₂
      exfalso
      revert hc₂
      norm_num [turnContains]
    · simp only [List.mem_singleton] at h₁
      subst h₁
      exfalso
      revert hc₁
      norm_num [turnContains]
    · simp only [List.mem_singleton] at h₁ h₂
      subst h₁; subst h₂; rfl
  exact ⟨hperm, hagree, claim_C2_amended_first_match _ _ (1/2) hperm hagree⟩

/-- C4 (confirmed): the chunker splits exactly when the word's assigned
speaker differs from the current chunk's speaker (equivalently, from the
previous word's speaker — every word of a chunk carries the chunk's speaker)
or when the gap `word.start - prev.end` strictly exceeds the threshold;
otherwise the word's text is appended verbatim and the chunk end extended,
as recorded by `runChunk` over the `pairSplit`-grouped runs. -/
theorem claim_C4_chunk_boundary_rule (words : List Word) (turns : List SpeakerTurn)
    (g : ℚ) (w0 : WordS) (rest : List WordS)
    (ht : turns ≠ []) (hw : assignSpeakers turns words = w0 :: rest) :
    merge_transcription_diarization words turns g
      = (pairRuns g w0 [] rest).map (fun r => stripChunk (runChunk r))
    ∧ (∀ r ∈ pairRuns g w0 [] rest, ∀ x ∈ runWords r, x.speaker = r.1.speaker)
    ∧ (∀ prev w : WordS, pairSplit g prev w = true ↔
        (w.speaker ≠ prev.speaker ∨ w.start - prev.end_ > g)) := by
  refine ⟨merge_eq_pairRuns words turns g w0 rest ht hw, ?_, ?_⟩
  · exact pairRuns_speakers g rest w0 [] (by simp)
  · intro prev w
    simp [pairSplit]

/-- The spec's Scenario B word list. -/
def wordsB : List Word :=
  [⟨"Hi", 0, 2/5⟩, ⟨" there", 1/2, 9/10⟩, ⟨" Bob", 2, 12/5⟩]

/-- The spec's Scenario B turn list. -/
def turnsB : List SpeakerTurn :=
  [⟨0, 1, "A"⟩]

/-- Scenario B words with their assigned speakers. -/
def wssB : List WordS :=
  [⟨"Hi", 0, 2/5, "A"⟩, ⟨" there", 1/2, 9/10, "A"⟩, ⟨" Bob", 2, 12/5, "UNKNOWN"⟩]

lemma assignSpeakers_B : assignSpeakers turnsB wordsB = wssB := by
  norm_num [assignSpeakers, wordsB, turnsB, wssB, wordMidpoint, find_speaker,
    List.find?, turnContains]

/-- Witness for C4 on the spec's Scenario B. -/
theorem claim_C4_witness :
    turnsB ≠ []
    ∧ assignSpeakers turnsB wordsB
        = ⟨"Hi", 0, 2/5, "A"⟩ :: [⟨" there", 1/2, 9/10, "A"⟩, ⟨" Bob", 2, 12/5, "UNKNOWN"⟩]
    ∧ (merge_transcription_diarization wordsB turnsB (3/10)
        = (pairRuns (3/10) ⟨"Hi", 0, 2/5, "A"⟩ []
            [⟨" there", 1/2, 9/10, "A"⟩, ⟨" Bob", 2, 12/5, "UNKNOWN"⟩]).map
            (fun r => stripChunk (runChunk r))
      ∧ (∀ r ∈ pairRuns (3/10) ⟨"Hi", 0, 2/5, "A"⟩ []
            [⟨" there", 1/2, 9/10, "A"⟩, ⟨" Bob", 2, 12/5, "UNKNOWN"⟩],
          ∀ x ∈ runWords r, x.speaker = r.1.speaker)
      ∧ (∀ prev w : WordS, pairSplit (3/10) prev w = true ↔
          (w.speaker ≠ prev.speaker ∨ w.start - prev.end_ > 3/10))) := by
  have h2 : assignSpeakers turnsB wordsB
      = ⟨"Hi", 0, 2/5, "A"⟩ :: [⟨" there", 1/2, 9/10, "A"⟩, ⟨" Bob", 2, 12/5, "UNKNOWN"⟩] := by
    rw [assignSpeakers_B]; rfl
  exact ⟨by simp [turnsB], h2,
    claim_C4_chunk_boundary_rule wordsB turnsB (3/10) _ _ (by simp [turnsB]) h2⟩

/-- C5 (confirmed): given words with `start ≤ end`, listed in non-decreasing
`start` order, every produced chunk satisfies `chunk.start ≤ chunk.end` and
the chunk list is ordered by non-decreasing `start`. -/
theorem claim_C5_chunk_invariants (words : List Word) (turns : List SpeakerTurn) (g : ℚ)
    (hse : ∀ w ∈ words, w.start ≤ w.end_)
    (hsort : words.Pairwise (fun a b => a.start ≤ b.start)) :
    (∀ c ∈ merge_transcription_diarization words turns g, c.start ≤ c.end_)
    ∧ (merge_transcription_diarization words turns g).Pairwise
        (fun a b => a.start ≤ b.start) := by
  by_cases ht : turns = []
  · subst ht
    simp [merge_transcription_diarization]
  cases hw : assignSpeakers turns words with
  | nil =>
    have hmerge : merge_transcription_diarization words turns g = [] := by
      unfold merge_transcription_diarization
      rw [hw]
      simp
    rw [hmerge]
    simp
  | cons w0 rest =>
    have hmerge := merge_eq_pairRuns words turns g w0 rest ht hw
    have hflat : ((pairRuns g w0 [] rest).map runWords).flatten = w0 :: rest := by
      simpa using pairRuns_flatten g rest w0 []
    have hwss_se : ∀ x ∈ (w0 :: rest), x.start ≤ x.end_ := by
      intro x hx
      rw [← hw] at hx
      obtain ⟨w, hwmem, h1, h2⟩ := assignSpeakers_mem turns words x hx
      rw [h1, h2]
      exact hse w hwmem
    have hwss_sort : (w0 :: rest).Pairwise (fun a b : WordS => a.start ≤ b.start) := by
      rw [← hw]
      unfold assignSpeakers
      exact List.Pairwise.map _ (fun a b hab => hab) hsort
    constructor
    · intro c hc
      rw [hmerge] at hc
      obtain ⟨r, hr, rfl⟩ := List.mem_map.mp hc
      have hsub : List.Sublist (runWords r) (w0 :: rest) := by
        rw [← hflat]
        exact run_sublist _ r hr
      have hpw : (runWords r).Pairwise (fun a b : WordS => a.start ≤ b.start) :=
        hwss_sort.sublist hsub
      have hLmem : lastD r.2 r.1 ∈ runWords r := lastD_mem r.2 r.1
      have hL_se : (lastD r.2 r.1).start ≤ (lastD r.2 r.1).end_ :=
        hwss_se _ (hsub.subset hLmem)
      have hhead : r.1.start ≤ (lastD r.2 r.1).start := by
        rcases List.mem_cons.mp hLmem with hL | hL
        · exact le_of_eq (congrArg WordS.start hL.symm)
        · exact (List.pairwise_cons.mp hpw).1 _ hL
      calc (stripChunk (runChunk r)).start = r.1.start := rfl
        _ ≤ (lastD r.2 r.1).start := hhead
        _ ≤ (lastD r.2 r.1).end_ := hL_se
        _ = (stripChunk (runChunk r)).end_ := rfl
    · rw [hmerge]
      have hheads : ((pairRuns g w0 [] rest).map (fun r => r.1)).Pairwise
          (fun a b : WordS => a.start ≤ b.start) := by
        refine hwss_sort.sublist ?_
        rw [← hflat]
        exact heads_sublist _
      have hruns : (pairRuns g w0 [] rest).Pairwise
          (fun a b => a.1.start ≤ b.1.start) := by
        rw [List.pairwise_map] at hheads
        exact hheads
      exact List.Pairwise.map _ (fun a b hab => hab) hruns

/-- Witness for C5 on the spec's Scenario B. -/
theorem claim_C5_witness :
    (∀ w ∈ wordsB, w.start ≤ w.end_)
    ∧ wordsB.Pairwise (fun a b => a.start ≤ b.start)
    ∧ ((∀ c ∈ merge_transcription_diarization wordsB turnsB (3/10), c.start ≤ c.end_)
      ∧ (merge_transcription_diarization wordsB turnsB (3/10)).Pairwise
          (fun a b => a.start ≤ b.start)) := by
  have h1 : ∀ w ∈ wordsB, w.start ≤ w.end_ := by
    intro w hw
    fin_cases hw <;> norm_num
  have h2 : wordsB.Pairwise (fun a b => a.start ≤ b.start) := by
    norm_num [wordsB, List.pairwise_cons]
  exact ⟨h1, h2, claim_C5_chunk_invariants wordsB turnsB (3/10) h1 h2⟩

/-- C10 (confirmed): on a nonempty word stream the chunker partitions the
assigned words into consecutive nonempty runs, in order, with no word
dropped, duplicated or reordered; each chunk takes its speaker and start
from the run's first word, its end from the run's last word, and its text is
the verbatim concatenation of the run's word texts with only leading and
trailing whitespace stripped. -/
theorem claim_C10_partition (words : List Word) (turns : List SpeakerTurn) (g : ℚ)
    (w0 : WordS) (rest : List WordS)
    (ht : turns ≠ []) (hw : assignSpeakers turns words = w0 :: rest) :
    ∃ runs : List (WordS × List WordS),
      ((runs.map runWords).flatten = assignSpeakers turns words)
      ∧ (∀ r ∈ runs, runWords r ≠ [])
      ∧ merge_transcription_diarization words turns g
          = runs.map (fun r =>
              { speaker := r.1.speaker
                text := pyStrip (r.1.word ++ catWords r.2)
                start := r.1.start
                end_ := (lastD r.2 r.1).end_ : SpeakerChunk }) := by
  refine ⟨pairRuns g w0 [] rest, ?_, ?_, ?_⟩
  · rw [hw]
    simpa using pairRuns_flatten g rest w0 []
  · intro r hr
    simp [runWords]
  · exact merge_eq_pairRuns words turns g w0 rest ht hw

/-- Witness for C10 on the spec's Scenario B. -/
theorem claim_C10_witness :
    turnsB ≠ []
    ∧ assignSpeakers turnsB wordsB
        = ⟨"Hi", 0, 2/5, "A"⟩ :: [⟨" there", 1/2, 9/10, "A"⟩, ⟨" Bob", 2, 12/5, "UNKNOWN"⟩]
    ∧ (∃ runs : List (WordS × List WordS),
        ((runs.map runWords).flatten = assignSpeakers turnsB wordsB)
        ∧ (∀ r ∈ runs, runWords r ≠ [])
        ∧ merge_transcription_diarization wordsB turnsB (3/10)
            = runs.map (fun r =>
                { speaker := r.1.speaker
                  text := pyStrip (r.1.word ++ catWords r.2)
                  start := r.1.start
                  end_ := (lastD r.2 r.1).end_ : SpeakerChunk })) := by
  have h2 : assignSpeakers turnsB wordsB
      = ⟨"Hi", 0, 2/5, "A"⟩ :: [⟨" there", 1/2, 9/10, "A"⟩, ⟨" Bob", 2, 12/5, "UNKNOWN"⟩] := by
    rw [assignSpeakers_B]; rfl
  exact ⟨by simp [turnsB], h2,
    claim_C10_partition wordsB turnsB (3/10) _ _ (by simp [turnsB]) h2⟩

/-! ## Loudness measurement parsing
(audio_processor.py lines 62-96, enhanced_audio_processor.py lines 157-216) -/

/-- Python `str.rfind(c)`: highest index of `c` in the string, `-1` when absent. -/
def pyRfind (s : List Char) (c : Char) : Int :=
  match s with
  | [] => -1
  | a :: rest =>
    let r := pyRfind rest c
    if r ≠ -1 then r + 1 else if a = c then 0 else -1

/-- Python slice `s[a:b]` for non-negative bounds (the only case the code reaches). -/
def pySlice (s : List Char) (a b : Int) : List Char :=
  (s.drop a.toNat).take (b.toNat - a.toNat)

def isJsonWs (c : Char) : Bool :=
  c = ' ' || c = '\t' || c = '\n' || c = '\r'

def skipWs (s : List Char) : List Char :=
  s.dropWhile isJsonWs

/-- Consume the body of a quoted string up to the closing quote. -/
def takeQuoted : List Char → Option (List Char × List Char)
  | [] => none
  | c :: rest =>
    if c = '"' then some ([], rest)
    else
      match takeQuoted rest with
      | some (s, r) => some (c :: s, r)
      | none => none

def parseJsonString (s : List Char) : Option (String × List Char) :=
  match s with
  | '"' :: rest =>
    match takeQuoted rest with
    | some (cs, r) => some (⟨cs⟩, r)
    | none => none
  | _ => none

def isNumChar (c : Char) : Bool :=
  c.isDigit || c = '-' || c = '+' || c = '.' || c = 'e' || c = 'E'

/-- A JSON value as the loudnorm measurement stream carries them: a quoted
string or a bare numeric token, returned as the raw text that the Python code
interpolates into the second-pass filter expression. -/
def parseJsonValue (s : List Char) : Option (String × List Char) :=
  match s with
  | '"' :: _ => parseJsonString s
  | _ =>
    let tok := s.takeWhile isNumChar
    if tok.isEmpty then none else some (⟨tok⟩, s.dropWhile isNumChar)

def parseMembers : Nat → List Char → Option (List (String × String) × List Char)
  | 0, _ => none
  | fuel + 1, s =>
    match parseJsonString (skipWs s) with
    | none => none
    | some (k, r1) =>
      match skipWs r1 with
      | ':' :: r2 =>
        match parseJsonValue (skipWs r2) with
        | none => none
        | some (v, r3) =>
          match skipWs r3 with
          | ',' :: r4 =>
            match parseMembers fuel r4 with
            | some (kvs, r5) => some ((k, v) :: kvs, r5)
            | none => none
          | '\x7d' :: r4 => some ([(k, v)], r4)
          | _ => none
      | _ => none

/-- Model of Python `json.loads` on the flat brace-delimited objects the
loudnorm measurement emits (string keys; values quoted strings or bare
numeric tokens): `none` models the call raising. The whole input must be one
object, up to surrounding whitespace. -/
def jsonLoads (s : List Char) : Option (List (String × String)) :=
  match skipWs s with
  | '\x7b' :: r =>
    match skipWs r with
    | '\x7d' :: r2 => if (skipWs r2).isEmpty then some [] else none
    | _ =>
      match parseMembers (r.length + 1) r with
      | some (kvs, rem) => if (skipWs rem).isEmpty then some kvs else none
      | none => none
  | _ => none

/-- Python dict lookup after `json.loads` (later duplicate keys win);
`none` models a `KeyError`. -/
def dictGet (kvs : List (String × String)) (k : String) : Option String :=
  (kvs.reverse.find? (fun p => decide (p.1 = k))).map (fun p => p.2)

/-- The five measured loudnorm fields, kept as the raw strings the code
interpolates (`stats['input_i']` etc.). -/
structure LoudnormStats where
  input_i : String
  input_lra : String
  input_tp : String
  input_thresh : String
  target_offset : String
deriving DecidableEq, Repr

/-- Reading the five required fields out of the parsed object; `none` models
the `KeyError` Python raises when one is missing. -/
def readStats (kvs : List (String × String)) : Option LoudnormStats :=
  match dictGet kvs "input_i", dictGet kvs "input_lra", dictGet kvs "input_tp",
      dictGet kvs "input_thresh", dictGet kvs "target_offset" with
  | some a, some b, some c, some d, some e => some ⟨a, b, c, d, e⟩
  | _, _, _, _, _ => none

/-- The three outcomes of the measurement-parsing block of
`master_clean_audio` (audio_processor.py lines 70-82): no brace pair found
(the code silently skips the correction pass), braces found but the substring
unparsable or a field missing (the exception propagates), or a parsed
measurement. -/
inductive MasterParse
  | noBraces
  | badJson
  | parsed (s : LoudnormStats)
deriving DecidableEq, Repr

/-- `start = text.rfind("\x7b"); end = text.rfind("\x7d")`, guard
`start != -1 and end != -1`, then `json.loads(text[start:end+1])` and the five
subscript lookups (audio_processor.py lines 71-81). -/
def masterMeasureParse (stderr : String) : MasterParse :=
  let t := stderr.data
  let start := pyRfind t '\x7b'
  let e := pyRfind t '\x7d'
  if start ≠ -1 ∧ e ≠ -1 then
    match jsonLoads (pySlice t start (e + 1)) with
    | none => .badJson
    | some kvs =>
      match readStats kvs with
      | none => .badJson
      | some s => .parsed s
  else .noBraces

/-- `json_start = rfind("\x7b"); json_end = rfind("\x7d") + 1`, guard
`json_start != -1 and json_end != -1` (the second conjunct is vacuous, since
`rfind + 1 ≥ 0`), then `json.loads(stderr_text[json_start:json_end])` and the
five lookups; any failure is caught by the surrounding `except` and yields
the fallback, so only success/failure is distinguished
(enhanced_audio_processor.py lines 172-187). -/
def computeEnhancedNorm (stderr : String) : Option LoudnormStats :=
  let t := stderr.data
  let js := pyRfind t '\x7b'
  let je := pyRfind t '\x7d' + 1
  if js ≠ -1 ∧ je ≠ -1 then
    match jsonLoads (pySlice t js je) with
    | none => none
    | some kvs => readStats kvs
  else none

/-! ## Filter expressions handed to ffmpeg -/

/-- The cleaning chain of `master_clean_audio` (audio_processor.py line 53). -/
def afCleanMaster : String :=
  "highpass=f=80,adeclick,afftdn=nr=20,deesser=f=6000:width=4000:threshold=0.2,dynaudnorm=f=200:g=15"

/-- The final resample/limit stage of `master_clean_audio` (audio_processor.py line 99). -/
def afFinalMaster : String :=
  "aresample=16000:resampler=soxr:precision=28,alimiter=limit=0.97"

/-- The measured second-pass loudnorm arguments of `master_clean_audio`
(audio_processor.py lines 77-82), with the five measured values interpolated
verbatim. -/
def normArgsMaster (s : LoudnormStats) : String :=
  "loudnorm=I=-19:LRA=7:TP=-1.5:measured_I=" ++ s.input_i
    ++ ":measured_LRA=" ++ s.input_lra
    ++ ":measured_TP=" ++ s.input_tp
    ++ ":measured_thresh=" ++ s.input_thresh
    ++ ":offset=" ++ s.target_offset ++ ":linear=true"

/-- `af_chain` of `_enhanced_audio_pipeline` (enhanced_audio_processor.py lines 76-84). -/
def af_chain : List String :=
  ["highpass=f=80",
   "lowpass=f=8000",
   "adeclick",
   "afftdn=nr=25:nf=-20",
   "deesser=f=6000:width=4000:threshold=0.15",
   "compand=0.1,0.3:-80,-80,-40,-25,-10,-10,0,0:6:0:-45",
   "dynaudnorm=f=200:g=15:s=9:r=0.95"]

/-- `":".join(af_chain)` (enhanced_audio_processor.py line 89). -/
def afChainEnhanced : String :=
  String.intercalate ":" af_chain

/-- The measured second-pass loudnorm arguments of
`_two_pass_loudness_normalize` (enhanced_audio_processor.py lines 180-187). -/
def normArgsEnhanced (s : LoudnormStats) : String :=
  "loudnorm=I=-16:LRA=7:TP=-1.5:measured_I=" ++ s.input_i
    ++ ":measured_LRA=" ++ s.input_lra
    ++ ":measured_TP=" ++ s.input_tp
    ++ ":measured_thresh=" ++ s.input_thresh
    ++ ":offset=" ++ s.target_offset ++ ":linear=true"

/-- `f"{normalization_args},aresample...,alimiter=limit=0.97"`
(enhanced_audio_processor.py line 194). -/
def afMeasuredEnhanced (s : LoudnormStats) : String :=
  normArgsEnhanced s ++ ",aresample=16000:resampler=soxr:precision=28,alimiter=limit=0.97"

/-- The single-pass fallback filter of `_two_pass_loudness_normalize`
(enhanced_audio_processor.py line 211). -/
def afFallbackEnhanced : String :=
  "loudnorm=I=-16:LRA=7:TP=-1.5,aresample=16000:resampler=soxr:precision=28,alimiter=limit=0.97"

/-- The single-pass branch of `_enhanced_audio_pipeline`
(enhanced_audio_processor.py line 105). -/
def afSinglePassEnhanced : String :=
  "loudnorm=I=-16:LRA=7:TP=-1.5,aresample=16000:resampler=soxr:precision=28"

/-! ## File-system / process model for the pipelines -/

/-- Symbolic provenance of an audio file's content: the source media's audio,
the output of an ffmpeg invocation with an optional filter expression, or the
output of the `noisereduce` pass. -/
inductive AudioSig
  | source
  | ffmpegOut (af : Option String) (input : AudioSig)
  | noiseReduced (input : AudioSig)
deriving DecidableEq, Repr

/-- The working area: an association from path to content. -/
abbrev Fs := List (String × AudioSig)

def getFile (fs : Fs) (p : String) : Option AudioSig :=
  (fs.find? (fun e => decide (e.1 = p))).map (fun e => e.2)

def setFile (fs : Fs) (p : String) (c : AudioSig) : Fs :=
  (p, c) :: fs.filter (fun e => decide (e.1 ≠ p))

def removeFile (fs : Fs) (p : String) : Fs :=
  fs.filter (fun e => decide (e.1 ≠ p))

/-- Everything the pipelines consult about the outside world: whether a given
ffmpeg invocation (keyed by its filter expression and output path) raises,
whether `os.remove` of a given path raises, the diagnostic stream of the
loudness measurement run, and whether the `noisereduce` computation raises. -/
structure Env where
  ffmpegFails : Option String → String → Bool
  rmFails : String → Bool
  measureStderr : String
  nrFails : Bool

/-- An ffmpeg run reading `inp` and writing `out` through the filter
expression `af`: raises (`Except.error`) when the environment says so or the
input file is absent, else overwrites `out`. -/
def runFfmpeg (env : Env) (fs : Fs) (inp : String) (af : Option String) (out : String) :
    Except Unit Fs :=
  match getFile fs inp with
  | none => .error ()
  | some c =>
    if env.ffmpegFails af out then .error ()
    else .ok (setFile fs out (.ffmpegOut af c))

/-- `if os.path.exists(f): try: os.remove(f) except: pass`
(audio_processor.py lines 109-114, enhanced_audio_processor.py lines 121-126). -/
def tryRemove (env : Env) (fs : Fs) (p : String) : Fs :=
  if (getFile fs p).isSome then
    (if env.rmFails p then fs else removeFile fs p)
  else fs

/-- The intermediate files of `master_clean_audio` for output stem `base`. -/
def masterTempFiles (base : String) : List String :=
  [base ++ "_master_clean_f32.wav", base ++ "_master_clean_pre.wav",
   base ++ "_master_clean_norm.wav"]

/-- `master_clean_audio` (audio_processor.py lines 33-119), as a function of
the environment and initial file state: the result is the produced path or an
error (the re-raised exception), paired with the final file state. Cleanup of
the temp files runs only after the final encode, inside the `try`. -/
def master_clean_audio (env : Env) (video_path base : String) (two_pass : Bool)
    (fs0 : Fs) : Except Unit String × Fs :=
  let out_wav := base ++ "_master_clean.wav"
  let tmp_f32 := base ++ "_master_clean_f32.wav"
  let pre := base ++ "_master_clean_pre.wav"
  let norm := base ++ "_master_clean_norm.wav"
  match runFfmpeg env fs0 video_path none tmp_f32 with
  | .error _ => (.error (), fs0)
  | .ok fs1 =>
    match runFfmpeg env fs1 tmp_f32 (some afCleanMaster) pre with
    | .error _ => (.error (), fs1)
    | .ok fs2 =>
      let srcRes : Except Unit (String × Fs) :=
        if two_pass then
          match masterMeasureParse env.measureStderr with
          | .noBraces => .ok (pre, fs2)
          | .badJson => .error ()
          | .parsed s =>
            match runFfmpeg env fs2 pre (some (normArgsMaster s)) norm with
            | .error _ => .error ()
            | .ok fs3 => .ok (norm, fs3)
        else .ok (pre, fs2)
      match srcRes with
      | .error _ => (.error (), fs2)
      | .ok (src, fs3) =>
        match runFfmpeg env fs3 src (some afFinalMaster) out_wav with
        | .error _ => (.error (), fs3)
        | .ok fs4 =>
          (.ok out_wav, (masterTempFiles base).foldl (tryRemove env) fs4)

/-- `_apply_noise_reduction` (enhanced_audio_processor.py lines 128-155): on
any internal failure of the noise-reduction computation the input is copied
unchanged to the output path; the only way to raise is the input being
unreadable. -/
def _apply_noise_reduction (env : Env) (fs : Fs) (input output : String) :
    Except Unit Fs :=
  match getFile fs input with
  | none => .error ()
  | some c =>
    .ok (setFile fs output (if env.nrFails then c else .noiseReduced c))

/-- `_two_pass_loudness_normalize` (enhanced_audio_processor.py lines
157-216): measure (the diagnostic stream comes from the environment), parse,
and apply the measured correction; any exception inside the `try` — parse
failure, missing field, or the measured ffmpeg run itself raising — falls
back to the single-pass invocation, whose own failure propagates. -/
def _two_pass_loudness_normalize (env : Env) (fs : Fs) (input output : String) :
    Except Unit Fs :=
  match computeEnhancedNorm env.measureStderr with
  | some s =>
    match runFfmpeg env fs input (some (afMeasuredEnhanced s)) output with
    | .ok fsOk => .ok fsOk
    | .error _ => runFfmpeg env fs input (some afFallbackEnhanced) output
  | none => runFfmpeg env fs input (some afFallbackEnhanced) output

/-- The intermediate files of `_enhanced_audio_pipeline` for video stem `base`
(enhanced_audio_processor.py lines 54-56; `temp_audio` is the processor's
temp directory). -/
def enhancedTempFiles (base : String) : List String :=
  ["temp_audio/" ++ base ++ "_raw.wav", "temp_audio/" ++ base ++ "_denoised.wav",
   "temp_audio/" ++ base ++ "_cleaned.wav"]

/-- `_enhanced_audio_pipeline` (enhanced_audio_processor.py lines 49-126):
extract, noise-reduce, filter, normalize; every exception is caught and
yields `none`, and the `finally` block removes the intermediates on every
path. -/
def _enhanced_audio_pipeline (env : Env) (video_path base : String) (two_pass : Bool)
    (fs0 : Fs) : Option String × Fs :=
  let raw := "temp_audio/" ++ base ++ "_raw.wav"
  let denoised := "temp_audio/" ++ base ++ "_denoised.wav"
  let cleaned := "temp_audio/" ++ base ++ "_cleaned.wav"
  let final_output := "temp_audio/" ++ base ++ "_enhanced.wav"
  let cleanup := fun fs => (enhancedTempFiles base).foldl (tryRemove env) fs
  match runFfmpeg env fs0 video_path none raw with
  | .error _ => (none, cleanup fs0)
  | .ok fs1 =>
    match _apply_noise_reduction env fs1 raw denoised with
    | .error _ => (none, cleanup fs1)
    | .ok fs2 =>
      match runFfmpeg env fs2 denoised (some afChainEnhanced) cleaned with
      | .error _ => (none, cleanup fs2)
      | .ok fs3 =>
        if two_pass then
          match _two_pass_loudness_normalize env fs3 cleaned final_output with
          | .error _ => (none, cleanup fs3)
          | .ok fs4 => (some final_output, cleanup fs4)
        else
          match runFfmpeg env fs3 cleaned (some afSinglePassEnhanced) final_output with
          | .error _ => (none, cleanup fs3)
          | .ok fs4 => (some final_output, cleanup fs4)

/-! ## Filter-chain grammar (for the transcoder's `-af` argument) -/

/-- Split a character list at every occurrence of `sep`. -/
def splitOnChar (sep : Char) : List Char → List (List Char)
  | [] => [[]]
  | c :: rest =>
    let r := splitOnChar sep rest
    if c = sep then [] :: r
    else
      match r with
      | [] => [[c]]
      | g :: gs => (c :: g) :: gs

/-- The filter specs of an ffmpeg filter-chain expression: chains are
comma-separated. -/
def chainFilters (af : String) : List String :=
  (splitOnChar ',' af.data).map (fun l => (⟨l⟩ : String))

/-- The filter name of one filter spec: everything before the first `=`. -/
def filterName (f : String) : String :=
  ⟨f.data.takeWhile (fun c => c ≠ '=')⟩

/-- The sequence of filter names an `-af` expression applies, left to right. -/
def chainFilterNames (af : String) : List String :=
  (chainFilters af).map filterName

/-! ## File-state lemmas -/

lemma getFile_cons (e : String × AudioSig) (fs : Fs) (p : String) :
    getFile (e :: fs) p = if e.1 = p then some e.2 else getFile fs p := by
  unfold getFile
  rw [List.find?_cons]
  by_cases hep : e.1 = p
  · simp [hep]
  · simp [hep]

lemma removeFile_cons (e : String × AudioSig) (fs : Fs) (q : String) :
    removeFile (e :: fs) q = if e.1 = q then removeFile fs q else e :: removeFile fs q := by
  unfold removeFile
  rw [List.filter_cons]
  by_cases he : e.1 = q
  · simp [he]
  · simp [he]

lemma getFile_setFile_self (fs : Fs) (p : String) (c : AudioSig) :
    getFile (setFile fs p c) p = some c := by
  simp [getFile, setFile, List.find?]

lemma runFfmpeg_ok (env : Env) (fs : Fs) (inp : String) (af : Option String)
    (out : String) (c : AudioSig) (h1 : getFile fs inp = some c)
    (h2 : env.ffmpegFails af out = false) :
    runFfmpeg env fs inp af out = .ok (setFile fs out (.ffmpegOut af c)) := by
  simp [runFfmpeg, h1, h2]

lemma getFile_removeFile_ne (fs : Fs) (p q : String) (h : p ≠ q) :
    getFile (removeFile fs q) p = getFile fs p := by
  induction fs with
  | nil => rfl
  | cons e fs ih =>
    rw [removeFile_cons]
    by_cases he : e.1 = q
    · rw [if_pos he, ih, getFile_cons]
      have hep : ¬ e.1 = p := fun hep => h (by rw [← hep]; exact he)
      rw [if_neg hep]
    · rw [if_neg he, getFile_cons, getFile_cons]
      by_cases hep : e.1 = p
      · rw [if_pos hep, if_pos hep]
      · rw [if_neg hep, if_neg hep, ih]

lemma getFile_removeFile_self (fs : Fs) (p : String) :
    getFile (removeFile fs p) p = none := by
  induction fs with
  | nil => rfl
  | cons e fs ih =>
    rw [removeFile_cons]
    by_cases he : e.1 = p
    · rw [if_pos he]
      exact ih
    · rw [if_neg he, getFile_cons, if_neg he]
      exact ih

lemma getFile_tryRemove_ne (env : Env) (fs : Fs) (p q : String) (h : p ≠ q) :
    getFile (tryRemove env fs q) p = getFile fs p := by
  unfold tryRemove
  by_cases h1 : (getFile fs q).isSome
  · by_cases h2 : env.rmFails q
    · simp [h1, h2]
    · simp [h1, h2, getFile_removeFile_ne fs p q h]
  · simp [h1]

lemma getFile_tryRemove_self (env : Env) (fs : Fs) (p : String)
    (h : env.rmFails p = false) : getFile (tryRemove env fs p) p = none := by
  unfold tryRemove
  by_cases h1 : (getFile fs p).isSome
  · simp [h1, h, getFile_removeFile_self]
  · simp only [h1, Bool.false_eq_true, if_neg, not_false_eq_true]
    exact Option.not_isSome_iff_eq_none.mp h1

lemma getFile_tryRemove_none (env : Env) (fs : Fs) (p q : String)
    (h : getFile fs p = none) : getFile (tryRemove env fs q) p = none := by
  by_cases hpq : p = q
  · subst hpq
    unfold tryRemove
    simp [h]
  · rw [getFile_tryRemove_ne env fs p q hpq]
    exact h

lemma getFile_foldl_tryRemove_none (env : Env) (l : List String) :
    ∀ (fs : Fs) (p : String), getFile fs p = none →
      getFile (l.foldl (tryRemove env) fs) p = none := by
  induction l with
  | nil => intro fs p h; exact h
  | cons q l ih =>
    intro fs p h
    exact ih _ p (getFile_tryRemove_none env fs p q h)

lemma getFile_foldl_tryRemove_mem (env : Env) (l : List String) :
    ∀ (fs : Fs) (p : String), p ∈ l → env.rmFails p = false →
      getFile (l.foldl (tryRemove env) fs) p = none := by
  induction l with
  | nil => intro fs p hp _; cases hp
  | cons q l ih =>
    intro fs p hp hrm
    rcases List.mem_cons.mp hp with rfl | hp
    · exact getFile_foldl_tryRemove_none env l _ p (getFile_tryRemove_self env fs p hrm)
    · exact ih _ p hp hrm

lemma getFile_foldl_tryRemove_ne (env : Env) (l : List String) :
    ∀ (fs : Fs) (p : String), p ∉ l →
      getFile (l.foldl (tryRemove env) fs) p = getFile fs p := by
  induction l with
  | nil => intro fs p _; rfl
  | cons q l ih =>
    intro fs p hp
    have hpq : p ≠ q := fun he => hp (by simp [he])
    have hpl : p ∉ l := fun he => hp (List.mem_cons_of_mem _ he)
    rw [List.foldl_cons, ih _ p hpl, getFile_tryRemove_ne env fs p q hpq]

lemma append_ne_of_ne (s : String) {a b : String} (h : a ≠ b) : s ++ a ≠ s ++ b := by
  intro he
  apply h
  have hd : (s ++ a).data = (s ++ b).data := congrArg String.data he
  rw [String.data_append, String.data_append] at hd
  have hab := List.append_cancel_left hd
  cases a
  cases b
  exact congrArg String.mk hab

lemma master_out_not_temp (base : String) :
    (base ++ "_master_clean.wav") ∉ masterTempFiles base := by
  intro h
  simp only [masterTempFiles, List.mem_cons, List.not_mem_nil, or_false] at h
  rcases h with h | h | h
  · exact append_ne_of_ne base (by decide) h
  · exact append_ne_of_ne base (by decide) h
  · exact append_ne_of_ne base (by decide) h

lemma enhanced_out_not_temp (base : String) :
    ("temp_audio/" ++ base ++ "_enhanced.wav") ∉ enhancedTempFiles base := by
  intro h
  simp only [enhancedTempFiles, List.mem_cons, List.not_mem_nil, or_false] at h
  rcases h with h | h | h
  · exact append_ne_of_ne "temp_audio/"
      (append_ne_of_ne base (show ("_enhanced.wav" : String) ≠ "_raw.wav" by decide)) h
  · exact append_ne_of_ne "temp_audio/"
      (append_ne_of_ne base (show ("_enhanced.wav" : String) ≠ "_denoised.wav" by decide)) h
  · exact append_ne_of_ne "temp_audio/"
      (append_ne_of_ne base (show ("_enhanced.wav" : String) ≠ "_cleaned.wav" by decide)) h

lemma runFfmpeg_update_rm (env : Env) (rm' : String → Bool) (fs : Fs)
    (inp : String) (af : Option String) (out : String) :
    runFfmpeg { env with rmFails := rm' } fs inp af out = runFfmpeg env fs inp af out := rfl

lemma noise_reduction_update_rm (env : Env) (rm' : String → Bool) (fs : Fs)
    (input output : String) :
    _apply_noise_reduction { env with rmFails := rm' } fs input output
      = _apply_noise_reduction env fs input output := rfl

lemma two_pass_update_rm (env : Env) (rm' : String → Bool) (fs : Fs)
    (input output : String) :
    _two_pass_loudness_normalize { env with rmFails := rm' } fs input output
      = _two_pass_loudness_normalize env fs input output := rfl

lemma measure_update_rm (env : Env) (rm' : String → Bool) :
    masterMeasureParse ({ env with rmFails := rm' } : Env).measureStderr
      = masterMeasureParse env.measureStderr := rfl

/-- The final state of the enhanced pipeline is always the `finally` cleanup
applied to some intermediate state. -/
lemma enhanced_pipeline_snd (env : Env) (video base : String) (tp : Bool) (fs0 : Fs) :
    ∃ fsX, (_enhanced_audio_pipeline env video base tp fs0).2
      = (enhancedTempFiles base).foldl (tryRemove env) fsX := by
  unfold _enhanced_audio_pipeline
  dsimp only
  repeat' split
  all_goals exact ⟨_, rfl⟩

/-- `master_clean_audio` either succeeds with the cleanup applied, or errors
with the state as it was when the exception was raised. -/
lemma master_result (env : Env) (video base : String) (tp : Bool) (fs0 : Fs) :
    (∃ fs4, master_clean_audio env video base tp fs0
        = (.ok (base ++ "_master_clean.wav"), (masterTempFiles base).foldl (tryRemove env) fs4))
    ∨ (∃ fsX, master_clean_audio env video base tp fs0 = (.error (), fsX)) := by
  unfold master_clean_audio
  dsimp only
  repeat' split
  all_goals first
    | exact Or.inl ⟨_, rfl⟩
    | exact Or.inr ⟨_, rfl⟩

/-! ## Claims C6 and C7 -/

/-- Counterexample to C6 as stated: when the final encode of
`master_clean_audio` raises, the run fails with the intermediate files
`_f32`/`_pre` still present — the cleanup loop sits inside the `try` after
the final encode (audio_processor.py lines 108-114), so failure paths do not
remove intermediates. -/
theorem claim_C6_counterexample :
    (master_clean_audio
        ⟨fun af _ => decide (af = some afFinalMaster), fun _ => false, "no json", false⟩
        "v.mp4" "v" true [("v.mp4", .source)]).1 = .error ()
    ∧ getFile (master_clean_audio
        ⟨fun af _ => decide (af = some afFinalMaster), fun _ => false, "no json", false⟩
        "v.mp4" "v" true [("v.mp4", .source)]).2 "v_master_clean_pre.wav"
      = some (.ffmpegOut (some afCleanMaster) (.ffmpegOut none .source))
    ∧ getFile (master_clean_audio
        ⟨fun af _ => decide (af = some afFinalMaster), fun _ => false, "no json", false⟩
        "v.mp4" "v" true [("v.mp4", .source)]).2 "v_master_clean_f32.wav"
      = some (.ffmpegOut none .source) :=
  ⟨rfl, rfl, rfl⟩

/-- C6 amended: the enhanced pipeline removes its intermediates on success
and on every failure path (its cleanup runs in a `finally`), and a failing
removal is swallowed; the basic `master_clean_audio` removes its
intermediates only on the success path; in both pipelines the removal oracle
never changes the outcome. -/
theorem claim_C6_amended_cleanup (env : Env) (video base : String) (two_pass : Bool)
    (fs0 : Fs) :
    (∀ p ∈ enhancedTempFiles base, env.rmFails p = false →
        getFile (_enhanced_audio_pipeline env video base two_pass fs0).2 p = none)
    ∧ (∀ out, (master_clean_audio env video base two_pass fs0).1 = .ok out →
        ∀ p ∈ masterTempFiles base, env.rmFails p = false →
          getFile (master_clean_audio env video base two_pass fs0).2 p = none)
    ∧ (∀ rm' : String → Bool,
        (_enhanced_audio_pipeline { env with rmFails := rm' } video base two_pass fs0).1
          = (_enhanced_audio_pipeline env video base two_pass fs0).1
        ∧ (master_clean_audio { env with rmFails := rm' } video base two_pass fs0).1
          = (master_clean_audio env video base two_pass fs0).1) := by
  refine ⟨?_, ?_, ?_⟩
  · intro p hp hrm
    obtain ⟨fsX, hsnd⟩ := enhanced_pipeline_snd env video base two_pass fs0
    rw [hsnd]
    exact getFile_foldl_tryRemove_mem env _ fsX p hp hrm
  · intro out hok p hp hrm
    rcases master_result env video base two_pass fs0 with ⟨fs4, heq⟩ | ⟨fsX, heq⟩
    · rw [heq]
      exact getFile_foldl_tryRemove_mem env _ fs4 p hp hrm
    · rw [heq] at hok
      simp at hok
  · intro rm'
    constructor
    · unfold _enhanced_audio_pipeline
      dsimp only
      simp only [runFfmpeg_update_rm, noise_reduction_update_rm, two_pass_update_rm]
      repeat' split
      all_goals rfl
    · unfold master_clean_audio
      dsimp only
      simp only [runFfmpeg_update_rm, measure_update_rm]
      repeat' split
      all_goals rfl

/-- Witness for the amended C6: with a benign environment both pipelines run
and their intermediates are gone afterwards. -/
theorem claim_C6_amended_witness :
    getFile (_enhanced_audio_pipeline ⟨fun _ _ => false, fun _ => false, "no json", false⟩
        "v.mp4" "v" true [("v.mp4", .source)]).2 ("temp_audio/" ++ "v" ++ "_raw.wav") = none
    ∧ getFile (master_clean_audio ⟨fun _ _ => false, fun _ => false, "no json", false⟩
        "v.mp4" "v" true [("v.mp4", .source)]).2 ("v" ++ "_master_clean_f32.wav") = none :=
  ⟨(claim_C6_amended_cleanup ⟨fun _ _ => false, fun _ => false, "no json", false⟩
      "v.mp4" "v" true [("v.mp4", .source)]).1 _ (by simp [enhancedTempFiles]) rfl,
   (claim_C6_amended_cleanup ⟨fun _ _ => false, fun _ => false, "no json", false⟩
      "v.mp4" "v" true [("v.mp4", .source)]).2.1 ("v" ++ "_master_clean.wav") rfl
      _ (by simp [masterTempFiles]) rfl⟩

/-- C7 (code bug in the enhanced variant): the basic chain expression is the
comma-separated composition high-pass, de-click, spectral denoiser,
de-esser, dynamic normalization, exactly in that order; the enhanced variant
joins its seven filter specs with `":"` (enhanced_audio_processor.py line 89)
instead of the transcoder's `,` chain separator, so the expression it hands
over is not the composition of those seven filters in that order. -/
theorem claim_C7_filter_chain :
    chainFilterNames afCleanMaster
      = ["highpass", "adeclick", "afftdn", "deesser", "dynaudnorm"]
    ∧ afChainEnhanced = String.intercalate ":" af_chain
    ∧ chainFilterNames afChainEnhanced
      ≠ ["highpass", "lowpass", "adeclick", "afftdn", "deesser", "compand", "dynaudnorm"]
    ∧ (chainFilterNames afChainEnhanced).length = 9 :=
  ⟨by decide, rfl, by decide, by decide⟩

/-! ## Claim C8 -/

/-- C8 (confirmed): when the noise-reduction computation fails internally,
`_apply_noise_reduction` raises nothing and writes the input content
unchanged to the output path, and the enhanced pipeline proceeds to produce
its output from audio identical to the stage's input (no `noiseReduced`
constructor in the provenance). -/
theorem claim_C8_noise_reduction_fallback (env : Env) (fs0 : Fs) (video base : String)
    (c : AudioSig) (hnr : env.nrFails = true)
    (hff : ∀ af out, env.ffmpegFails af out = false)
    (hv : getFile fs0 video = some c) :
    (∀ (fs : Fs) (input output : String) (cin : AudioSig), getFile fs input = some cin →
        _apply_noise_reduction env fs input output = .ok (setFile fs output cin))
    ∧ (_enhanced_audio_pipeline env video base true fs0).1
        = some ("temp_audio/" ++ base ++ "_enhanced.wav")
    ∧ (∃ afNorm,
        getFile (_enhanced_audio_pipeline env video base true fs0).2
            ("temp_audio/" ++ base ++ "_enhanced.wav")
          = some (.ffmpegOut (some afNorm)
              (.ffmpegOut (some afChainEnhanced) (.ffmpegOut none c)))) := by
  have hstage : ∀ (fs : Fs) (input output : String) (cin : AudioSig),
      getFile fs input = some cin →
      _apply_noise_reduction env fs input output = .ok (setFile fs output cin) := by
    intro fs input output cin hin
    simp [_apply_noise_reduction, hin, hnr]
  have h1 := runFfmpeg_ok env fs0 video none ("temp_audio/" ++ base ++ "_raw.wav") c hv
    (hff _ _)
  have h2 := hstage (setFile fs0 ("temp_audio/" ++ base ++ "_raw.wav") (.ffmpegOut none c))
    ("temp_audio/" ++ base ++ "_raw.wav") ("temp_audio/" ++ base ++ "_denoised.wav")
    (.ffmpegOut none c) (getFile_setFile_self _ _ _)
  have h3 := runFfmpeg_ok env
    (setFile (setFile fs0 ("temp_audio/" ++ base ++ "_raw.wav") (.ffmpegOut none c))
      ("temp_audio/" ++ base ++ "_denoised.wav") (.ffmpegOut none c))
    ("temp_audio/" ++ base ++ "_denoised.wav") (some afChainEnhanced)
    ("temp_audio/" ++ base ++ "_cleaned.wav") (.ffmpegOut none c)
    (getFile_setFile_self _ _ _) (hff _ _)
  have h4 : ∃ afNorm, _two_pass_loudness_normalize env
      (setFile (setFile (setFile fs0 ("temp_audio/" ++ base ++ "_raw.wav") (.ffmpegOut none c))
        ("temp_audio/" ++ base ++ "_denoised.wav") (.ffmpegOut none c))
        ("temp_audio/" ++ base ++ "_cleaned.wav")
        (.ffmpegOut (some afChainEnhanced) (.ffmpegOut none c)))
      ("temp_audio/" ++ base ++ "_cleaned.wav") ("temp_audio/" ++ base ++ "_enhanced.wav")
      = .ok (setFile (setFile (setFile (setFile fs0
          ("temp_audio/" ++ base ++ "_raw.wav") (.ffmpegOut none c))
          ("temp_audio/" ++ base ++ "_denoised.wav") (.ffmpegOut none c))
          ("temp_audio/" ++ base ++ "_cleaned.wav")
          (.ffmpegOut (some afChainEnhanced) (.ffmpegOut none c)))
          ("temp_audio/" ++ base ++ "_enhanced.wav")
          (.ffmpegOut (some afNorm) (.ffmpegOut (some afChainEnhanced) (.ffmpegOut none c)))) := by
    cases hcn : computeEnhancedNorm env.measureStderr with
    | some s =>
      refine ⟨afMeasuredEnhanced s, ?_⟩
      have hrun := runFfmpeg_ok env
        (setFile (setFile (setFile fs0 ("temp_audio/" ++ base ++ "_raw.wav") (.ffmpegOut none c))
          ("temp_audio/" ++ base ++ "_denoised.wav") (.ffmpegOut none c))
          ("temp_audio/" ++ base ++ "_cleaned.wav")
          (.ffmpegOut (some afChainEnhanced) (.ffmpegOut none c)))
        ("temp_audio/" ++ base ++ "_cleaned.wav") (some (afMeasuredEnhanced s))
        ("temp_audio/" ++ base ++ "_enhanced.wav")
        (.ffmpegOut (some afChainEnhanced) (.ffmpegOut none c))
        (getFile_setFile_self _ _ _) (hff _ _)
      unfold _two_pass_loudness_normalize
      simp only [hcn, hrun]
    | none =>
      refine ⟨afFallbackEnhanced, ?_⟩
      have hrun := runFfmpeg_ok env
        (setFile (setFile (setFile fs0 ("temp_audio/" ++ base ++ "_raw.wav") (.ffmpegOut none c))
          ("temp_audio/" ++ base ++ "_denoised.wav") (.ffmpegOut none c))
          ("temp_audio/" ++ base ++ "_cleaned.wav")
          (.ffmpegOut (some afChainEnhanced) (.ffmpegOut none c)))
        ("temp_audio/" ++ base ++ "_cleaned.wav") (some afFallbackEnhanced)
        ("temp_audio/" ++ base ++ "_enhanced.wav")
        (.ffmpegOut (some afChainEnhanced) (.ffmpegOut none c))
        (getFile_setFile_self _ _ _) (hff _ _)
      unfold _two_pass_loudness_normalize
      simp only [hcn, hrun]
  obtain ⟨afNorm, h4⟩ := h4
  have hpipe : _enhanced_audio_pipeline env video base true fs0
      = (some ("temp_audio/" ++ base ++ "_enhanced.wav"),
          (enhancedTempFiles base).foldl (tryRemove env)
            (setFile (setFile (setFile (setFile fs0
              ("temp_audio/" ++ base ++ "_raw.wav") (.ffmpegOut none c))
              ("temp_audio/" ++ base ++ "_denoised.wav") (.ffmpegOut none c))
              ("temp_audio/" ++ base ++ "_cleaned.wav")
              (.ffmpegOut (some afChainEnhanced) (.ffmpegOut none c)))
              ("temp_audio/" ++ base ++ "_enhanced.wav")
              (.ffmpegOut (some afNorm)
                (.ffmpegOut (some afChainEnhanced) (.ffmpegOut none c))))) := by
    unfold _enhanced_audio_pipeline
    dsimp only
    simp only [h1, h2, h3, h4, eq_self_iff_true, if_true]
  refine ⟨hstage, by rw [hpipe], ⟨afNorm, ?_⟩⟩
  rw [hpipe]
  dsimp only
  rw [getFile_foldl_tryRemove_ne env _ _ _ (enhanced_out_not_temp base)]
  exact getFile_setFile_self _ _ _

/-- Witness for C8: a failing noise-reduction stage with otherwise benign
environment still yields the enhanced output, built from the unmodified
extracted audio. -/
theorem claim_C8_witness :
    (⟨fun _ _ => false, fun _ => false, "", true⟩ : Env).nrFails = true
    ∧ (_enhanced_audio_pipeline ⟨fun _ _ => false, fun _ => false, "", true⟩
        "v.mp4" "v" true [("v.mp4", .source)]).1
      = some ("temp_audio/" ++ "v" ++ "_enhanced.wav")
    ∧ (∃ afNorm,
        getFile (_enhanced_audio_pipeline ⟨fun _ _ => false, fun _ => false, "", true⟩
            "v.mp4" "v" true [("v.mp4", .source)]).2
            ("temp_audio/" ++ "v" ++ "_enhanced.wav")
          = some (.ffmpegOut (some afNorm)
              (.ffmpegOut (some afChainEnhanced) (.ffmpegOut none .source)))) := by
  have h := claim_C8_noise_reduction_fallback
    ⟨fun _ _ => false, fun _ => false, "", true⟩ [("v.mp4", .source)] "v.mp4" "v"
    .source rfl (fun _ _ => rfl) rfl
  exact ⟨rfl, h.2.1, h.2.2⟩

/-! ## Claim C1 -/

/-- Counterexample to C1 as stated: a diagnostic stream whose last
brace-delimited substring is not a valid measurement object (`"\x7boops\x7d"`)
makes `json.loads` raise inside the `try` of `master_clean_audio`, and the
exception propagates — the whole run fails instead of falling back to a
single-pass correction (audio_processor.py lines 70-82, 118-119). -/
theorem claim_C1_counterexample :
    masterMeasureParse "\x7boops\x7d" = .badJson
    ∧ (master_clean_audio ⟨fun _ _ => false, fun _ => false, "\x7boops\x7d", false⟩
        "v.mp4" "v" true [("v.mp4", .source)]).1 = .error () :=
  ⟨by decide, rfl⟩

/-- C1 amended: in the enhanced normalizer the claim holds — a parsed
measurement's five values are passed verbatim (as their raw strings, no
precision loss) into the single second-pass invocation, and a stream with no
valid object yields one single-pass target-only fallback invocation, not a
failure. In the basic `master_clean_audio`, however, a stream with no brace
pair silently skips loudness correction altogether (the run succeeds but no
loudnorm filter is ever applied), and a brace-delimited substring that is not
a valid five-field measurement fails the whole run. -/
theorem claim_C1_amended_loudnorm (env : Env) (fs : Fs) (input output video base : String)
    (c : AudioSig) :
    (∀ s : LoudnormStats, computeEnhancedNorm env.measureStderr = some s →
      getFile fs input = some c →
      env.ffmpegFails (some (afMeasuredEnhanced s)) output = false →
      _two_pass_loudness_normalize env fs input output
        = .ok (setFile fs output (.ffmpegOut (some
            ("loudnorm=I=-16:LRA=7:TP=-1.5:measured_I=" ++ s.input_i
              ++ ":measured_LRA=" ++ s.input_lra
              ++ ":measured_TP=" ++ s.input_tp
              ++ ":measured_thresh=" ++ s.input_thresh
              ++ ":offset=" ++ s.target_offset ++ ":linear=true"
              ++ ",aresample=16000:resampler=soxr:precision=28,alimiter=limit=0.97")) c)))
    ∧ (computeEnhancedNorm env.measureStderr = none →
      getFile fs input = some c →
      env.ffmpegFails (some afFallbackEnhanced) output = false →
      _two_pass_loudness_normalize env fs input output
        = .ok (setFile fs output (.ffmpegOut (some afFallbackEnhanced) c)))
    ∧ (masterMeasureParse env.measureStderr = .noBraces →
      getFile fs video = some c →
      (∀ af out, env.ffmpegFails af out = false) →
      ((master_clean_audio env video base true fs).1 = .ok (base ++ "_master_clean.wav")
      ∧ getFile (master_clean_audio env video base true fs).2 (base ++ "_master_clean.wav")
          = some (.ffmpegOut (some afFinalMaster)
              (.ffmpegOut (some afCleanMaster) (.ffmpegOut none c)))
      ∧ "loudnorm" ∉ chainFilterNames afCleanMaster
      ∧ "loudnorm" ∉ chainFilterNames afFinalMaster))
    ∧ (masterMeasureParse env.measureStderr = .badJson →
      (master_clean_audio env video base true fs).1 = .error ()) := by
  refine ⟨?_, ?_, ?_, ?_⟩
  · intro s hcn hin hf
    have hrun := runFfmpeg_ok env fs input (some (afMeasuredEnhanced s)) output c hin hf
    unfold _two_pass_loudness_normalize
    simp only [hcn, hrun]
    rfl
  · intro hcn hin hf
    have hrun := runFfmpeg_ok env fs input (some afFallbackEnhanced) output c hin hf
    unfold _two_pass_loudness_normalize
    simp only [hcn, hrun]
  · intro hnb hv hff
    have ha := runFfmpeg_ok env fs video none (base ++ "_master_clean_f32.wav") c hv
      (hff _ _)
    have hb := runFfmpeg_ok env
      (setFile fs (base ++ "_master_clean_f32.wav") (.ffmpegOut none c))
      (base ++ "_master_clean_f32.wav") (some afCleanMaster)
      (base ++ "_master_clean_pre.wav") (.ffmpegOut none c)
      (getFile_setFile_self _ _ _) (hff _ _)
    have hc := runFfmpeg_ok env
      (setFile (setFile fs (base ++ "_master_clean_f32.wav") (.ffmpegOut none c))
        (base ++ "_master_clean_pre.wav") (.ffmpegOut (some afCleanMaster) (.ffmpegOut none c)))
      (base ++ "_master_clean_pre.wav") (some afFinalMaster)
      (base ++ "_master_clean.wav") (.ffmpegOut (some afCleanMaster) (.ffmpegOut none c))
      (getFile_setFile_self _ _ _) (hff _ _)
    have hpair : master_clean_audio env video base true fs
        = (.ok (base ++ "_master_clean.wav"),
            (masterTempFiles base).foldl (tryRemove env)
              (setFile (setFile (setFile fs
                (base ++ "_master_clean_f32.wav") (.ffmpegOut none c))
                (base ++ "_master_clean_pre.wav")
                  (.ffmpegOut (some afCleanMaster) (.ffmpegOut none c)))
                (base ++ "_master_clean.wav")
                  (.ffmpegOut (some afFinalMaster)
                    (.ffmpegOut (some afCleanMaster) (.ffmpegOut none c))))) := by
      unfold master_clean_audio
      dsimp only
      simp only [ha, hb, hnb, hc, eq_self_iff_true, if_true]
    refine ⟨by rw [hpair], ?_, by decide, by decide⟩
    rw [hpair]
    dsimp only
    rw [getFile_foldl_tryRemove_ne env _ _ _ (master_out_not_temp base)]
    exact getFile_setFile_self _ _ _
  · intro hbad
    unfold master_clean_audio
    dsimp only
    cases h1 : runFfmpeg env fs video none (base ++ "_master_clean_f32.wav") with
    | error e => rfl
    | ok fs1 =>
      dsimp only
      cases h2 : runFfmpeg env fs1 (base ++ "_master_clean_f32.wav") (some afCleanMaster)
          (base ++ "_master_clean_pre.wav") with
      | error e => rfl
      | ok fs2 =>
        dsimp only
        simp only [hbad, eq_self_iff_true, if_true]

/-- An ffmpeg-style loudnorm diagnostic stream used as concrete input. -/
def loudnormStderrSample : String :=
  "[Parsed_loudnorm_0 @ 0x55] \n\x7b\n\t\"input_i\" : \"-27.61\",\n\t\"input_tp\" : \"-4.47\",\n\t\"input_lra\" : \"18.06\",\n\t\"input_thresh\" : \"-39.20\",\n\t\"output_i\" : \"-16.58\",\n\t\"target_offset\" : \"0.58\"\n\x7d\n"

/-- Witness for the amended C1: on a realistic diagnostic stream the five
values are extracted and interpolated verbatim into the correction pass. -/
theorem claim_C1_amended_witness :
    computeEnhancedNorm loudnormStderrSample
      = some ⟨"-27.61", "18.06", "-4.47", "-39.20", "0.58"⟩
    ∧ _two_pass_loudness_normalize
        ⟨fun _ _ => false, fun _ => false, loudnormStderrSample, false⟩
        [("in.wav", .source)] "in.wav" "out.wav"
      = .ok (setFile [("in.wav", .source)] "out.wav"
          (.ffmpegOut (some ("loudnorm=I=-16:LRA=7:TP=-1.5:measured_I=" ++ "-27.61"
            ++ ":measured_LRA=" ++ "18.06" ++ ":measured_TP=" ++ "-4.47"
            ++ ":measured_thresh=" ++ "-39.20" ++ ":offset=" ++ "0.58" ++ ":linear=true"
            ++ ",aresample=16000:resampler=soxr:precision=28,alimiter=limit=0.97")) .source)) := by
  have hcn : computeEnhancedNorm loudnormStderrSample
      = some ⟨"-27.61", "18.06", "-4.47", "-39.20", "0.58"⟩ := by decide
  exact ⟨hcn,
    (claim_C1_amended_loudnorm
        ⟨fun _ _ => false, fun _ => false, loudnormStderrSample, false⟩
        [("in.wav", .source)] "in.wav" "out.wav" "v.mp4" "v" .source).1
      ⟨"-27.61", "18.06", "-4.47", "-39.20", "0.58"⟩ hcn rfl rfl⟩
